import Mathlib

/-!
Verification of the timetable subsystem of the HMS backend.

The definitions below are a shallow embedding of `HMS/views.py`
(`TimetableViewSet`, `TimetableGenerationViewSet`) together with the
spec-described `TimetableGenerationService` (its module is not part of the
sources available here; where a definition is reconstructed from the
specification alone its doc comment says so explicitly).

Conventions of the embedding:
* the database is a list of `Timetable` rows plus a list of `Enrollment`
  rows; Django querysets become `List.filter`;
* `datetime.time` values become minutes-since-midnight (`Nat`), which
  preserves the order used by the `<` / `>` comparisons in the code;
* Django `filter(field=None)` compares against SQL NULL (`isnull`), which
  is exactly `Option` equality (`none = none` matches, `some x = none`
  does not);
* a Python `KeyError` / `DoesNotExist` escaping into the surrounding
  `except` block becomes `Except.error`;
* response payloads keep only the fields the claims speak about; display
  strings (course names, formatted times) are projections of the returned
  rows and are elided.
-/

namespace HMS

/-- Class group as seen through the timetable joins: its id and the ids of
its trainee users (the `class_group__trainees` many-to-many). -/
structure ClassGroup where
  id : Nat
  trainees : List Nat
  programme_department_hod : Option Nat
deriving DecidableEq

/-- Course enrollment (`courseManager.models.Enrollment`) restricted to the
fields the timetable views read: trainer, class group, term, and the hod of
the course's department (for the `hod` branch of `get_queryset`). -/
structure Enrollment where
  id : Nat
  trainer : Option Nat
  class_group : Option ClassGroup
  term : Nat
  course_department_hod : Option Nat
deriving DecidableEq

/-- A `Timetable` row (the Django model `HMS.models.Timetable`), with the
course enrollment join inlined. -/
structure Timetable where
  id : Nat
  course_enrollment : Enrollment
  day_of_week : String
  start_time : Nat
  end_time : Nat
  room : Nat
  is_draft : Bool
  draft_version : String
deriving DecidableEq

/-- Embedding of the per-entry `TimetableViewSet.publish` action
(views.py lines 396-411): fetch the row by pk, reject (400) when it is
already published, otherwise flip its `is_draft` to `False`.  The returned
`Nat` is the HTTP status. -/
def publish_entry (db : List Timetable) (pk : Nat) : List Timetable × Nat :=
  match db.find? (fun t => decide (t.id = pk)) with
  | none => (db, 404)
  | some t =>
    if t.is_draft = false then
      (db, 400)
    else
      (db.map fun u => if u.id = pk then { u with is_draft := false } else u, 200)

/-- Response of `revert_to_draft`: HTTP status and the `updated_count`
reported on success (0 on the 400/404 paths, which carry no count). -/
structure RevertResult where
  status : Nat
  updated_count : Nat
deriving DecidableEq

/-- Embedding of `TimetableViewSet.revert_to_draft` (views.py lines
413-453).  `pk` carries the version token; `None` yields the 400
"no version number provided" response.  The update flips
`is_draft := True` on rows with this `draft_version` and `is_draft=False`
and returns how many rows matched; a zero count yields the 404
"no published entries found" response. -/
def revert_to_draft (db : List Timetable) (pk : Option String) :
    List Timetable × RevertResult :=
  match pk with
  | none => (db, ⟨400, 0⟩)
  | some version =>
    let updated_count := (db.filter fun t =>
      decide (t.draft_version = version) && decide (t.is_draft = false)).length
    let db2 := db.map fun t =>
      if t.draft_version = version ∧ t.is_draft = false then
        { t with is_draft := true }
      else t
    if updated_count = 0 then
      (db2, ⟨404, 0⟩)
    else
      (db2, ⟨200, updated_count⟩)

/-- Result dict of the service-level publish, as described by the spec:
`{published_count, previously_active_count, previously_active_versions}`. -/
structure ServicePublishResult where
  published_count : Nat
  previously_active_count : Nat
  previously_active_versions : List String
deriving DecidableEq

/-- Modelled from the spec: `TimetableGenerationService.publish_draft_timetable`
lives in `HMS/services.py`, which is not among the available sources.
Following spec section 4.3 it (a) records which other versions currently
have published entries, (b) flips all entries of those other versions back
to `is_draft=True`, (c) flips all entries of `draft_version` to
`is_draft=False`, and reports `published_count` (zero when no entries
exist for the version, the failure case). -/
def publish_draft_timetable (version : String) (db : List Timetable) :
    List Timetable × ServicePublishResult :=
  let other_published := db.filter fun t =>
    decide (t.is_draft = false) && !(decide (t.draft_version = version))
  let previously_active_versions := (other_published.map (·.draft_version)).dedup
  let previously_active_count := other_published.length
  let db1 := db.map fun t =>
    if t.is_draft = false ∧ t.draft_version ≠ version then
      { t with is_draft := true }
    else t
  let db2 := db1.map fun t =>
    if t.draft_version = version then { t with is_draft := false } else t
  let published_count := (db.filter fun t => decide (t.draft_version = version)).length
  (db2, ⟨published_count, previously_active_count, previously_active_versions⟩)

/-- The unconditional deactivation step of `TimetableViewSet.publish_draft`
(views.py lines 675-677): `Timetable.objects.filter(is_draft=False)
.update(is_draft=True)` — every published row of every version and term is
flipped back to draft before the service is invoked. -/
def deactivate_all_published (db : List Timetable) : List Timetable :=
  db.map fun t => if t.is_draft = false then { t with is_draft := true } else t

/-- Response of the `publish_draft` endpoint: HTTP status,
`published_count`, and the `previously_active_count` /
`previously_active_versions` pair, which the view includes only when the
service reported a positive count (hence `Option`). -/
structure PublishDraftResponse where
  status : Nat
  published_count : Nat
  previously_active_count : Option Nat
  previously_active_versions : Option (List String)
deriving DecidableEq

/-- Embedding of `TimetableViewSet.publish_draft` (views.py lines 653-729):
missing version gives 400; otherwise all currently published rows are
deactivated, the service publish runs, and a zero `published_count` yields
the 404 response (the state changes already performed are kept — there is
no enclosing transaction in the view).  The class-group schedule rebuild
touches a separate denormalized table and is elided. -/
def publish_draft_view (version : Option String) (db : List Timetable) :
    List Timetable × PublishDraftResponse :=
  match version with
  | none => (db, ⟨400, 0, none, none⟩)
  | some v =>
    let db0 := deactivate_all_published db
    let step := publish_draft_timetable v db0
    let db1 := step.1
    let result := step.2
    if result.published_count = 0 then
      (db1, ⟨404, 0, none, none⟩)
    else if result.previously_active_count > 0 then
      (db1, ⟨200, result.published_count, some result.previously_active_count,
            some result.previously_active_versions⟩)
    else
      (db1, ⟨200, result.published_count, none, none⟩)

/-- The distinct versions that currently have at least one published
(`is_draft=False`) entry. -/
def activeVersions (db : List Timetable) : List String :=
  ((db.filter fun t => decide (t.is_draft = false)).map (·.draft_version)).dedup

/-- A version is active exactly when it has published entries (spec:
`is_active` iff `published_entries > 0`). -/
def isActive (version : String) (db : List Timetable) : Bool :=
  !(db.filter fun t =>
      decide (t.draft_version = version) && decide (t.is_draft = false)).isEmpty

/-- User roles dispatched on by `TimetableViewSet.get_queryset`. -/
inductive Role
  | trainee
  | trainer
  | hod
  | dp_academics
  | other
deriving DecidableEq

/-- The requesting user: id and role. -/
structure User where
  id : Nat
  role : Role
deriving DecidableEq

/-- Embedding of `TimetableViewSet.get_queryset` (views.py lines 232-270):
an optional `term` query parameter narrows by the enrollment's term, then
role-based filters apply.  Trainees see entries of class groups they
belong to, trainers entries of enrollments assigned to them, hods
department-related entries, dp_academics everything — each of those four
roles restricted to `is_draft=False`; any other role sees the unrestricted
queryset. -/
def get_queryset (user : User) (term : Option Nat) (db : List Timetable) :
    List Timetable :=
  let q := match term with
    | some term_id => db.filter fun t => decide (t.course_enrollment.term = term_id)
    | none => db
  match user.role with
  | .trainee =>
    ((q.filter fun t =>
        match t.course_enrollment.class_group with
        | some cg => decide (user.id ∈ cg.trainees)
        | none => false).filter
      fun t => decide (t.is_draft = false))
  | .trainer =>
    ((q.filter fun t => decide (t.course_enrollment.trainer = some user.id)).filter
      fun t => decide (t.is_draft = false))
  | .hod =>
    ((q.filter fun t =>
        decide (t.course_enrollment.course_department_hod = some user.id)
          || (match t.course_enrollment.class_group with
              | some cg => decide (cg.programme_department_hod = some user.id)
              | none => false)).filter
      fun t => decide (t.is_draft = false))
  | .dp_academics => q.filter fun t => decide (t.is_draft = false)
  | .other => q

/-- Response of the timetable `bulk_create` action, parametric in the raw
item type `α` and the serializer error type `ε`: the saved rows, the
per-item error records (`{'data': item, 'errors': ...}`), and the HTTP
status. -/
structure BulkCreateResponse (α ε : Type) where
  created : List Timetable
  errors : List (α × ε)
  status : Nat

/-- One pass of the loop in `TimetableViewSet.bulk_create`: each valid item
is saved immediately (appended to the table), each invalid one is recorded
with its data and errors.  `validate` stands for
`self.get_serializer(data=item).is_valid()` plus `.save()`'s row. -/
def bulk_create_go (validate : α → Except ε Timetable) :
    List α → List Timetable → List Timetable → List (α × ε) →
      List Timetable × List Timetable × List (α × ε)
  | [], db, created, errors => (db, created.reverse, errors.reverse)
  | item :: rest, db, created, errors =>
    match validate item with
    | Except.ok row => bulk_create_go validate rest (db ++ [row]) (row :: created) errors
    | Except.error e => bulk_create_go validate rest db created ((item, e) :: errors)

/-- Embedding of `TimetableViewSet.bulk_create` (views.py lines 364-394):
iterate over the submitted list saving valid items as they come, then
answer 201 when no item failed and 400 otherwise (already-saved rows are
not rolled back). -/
def bulk_create (validate : α → Except ε Timetable) (items : List α)
    (db : List Timetable) : List Timetable × BulkCreateResponse α ε :=
  let r := bulk_create_go validate items db [] []
  (r.1, ⟨r.2.1, r.2.2, if r.2.2.isEmpty then 201 else 400⟩)

/-- A candidate placement for one enrollment: (day, start, end, room), as
in spec section 4.2 step 2. -/
structure Candidate where
  day : String
  start_time : Nat
  end_time : Nat
  room : Nat
deriving DecidableEq

/-- An accepted assignment of a candidate slot to an enrollment. -/
structure Assignment where
  enrollment : Enrollment
  cand : Candidate
deriving DecidableEq

/-- Modelled from the spec: the conflict rule of section 4.1 applied
between a candidate slot for `e` and an already-accepted assignment —
same day, half-open time overlap, and a shared room, trainer or class
group. -/
def candConflicts (e : Enrollment) (c : Candidate) (a : Assignment) : Bool :=
  decide (a.cand.day = c.day)
    && decide (a.cand.start_time < c.end_time)
    && decide (a.cand.end_time > c.start_time)
    && (decide (a.cand.room = c.room)
        || decide (a.enrollment.trainer = e.trainer)
        || decide (a.enrollment.class_group = e.class_group))

/-- A candidate is acceptable when it conflicts with no already-placed
assignment and with no externally published entry (spec 4.2 step 3). -/
def candOk (ext : List Assignment) (e : Enrollment) (c : Candidate)
    (placed : List Assignment) : Bool :=
  (placed ++ ext).all fun a => !candConflicts e c a

mutual

/-- Modelled from the spec: the backtracking search of
`TimetableGenerationService.generate_timetable` (section 4.2 steps 2-5;
`HMS/services.py` is not among the available sources).  Enrollments are
tried in their given deterministic order; `cands e` is the ordered
candidate list for `e`; the result is the completed assignment list or
`none` when the root's candidates are exhausted. -/
def solve (ext : List Assignment) (cands : Enrollment → List Candidate) :
    List Enrollment → List Assignment → Option (List Assignment)
  | [], placed => some placed
  | e :: rest, placed => solveGo ext cands e rest placed (cands e)
termination_by es _ => (sizeOf es, 0)

/-- Candidate loop of the backtracking search: try each candidate of `e`
in order, recursing into the remaining enrollments on acceptance and
falling through to the next candidate on failure. -/
def solveGo (ext : List Assignment) (cands : Enrollment → List Candidate)
    (e : Enrollment) (rest : List Enrollment) (placed : List Assignment) :
    List Candidate → Option (List Assignment)
  | [] => none
  | c :: cs =>
    if candOk ext e c placed then
      match solve ext cands rest (⟨e, c⟩ :: placed) with
      | some sol => some sol
      | none => solveGo ext cands e rest placed cs
    else
      solveGo ext cands e rest placed cs
termination_by cs => (sizeOf rest, sizeOf cs + 1)

end

mutual

/-- Depth-bounded variant of `solve`: `fuel` limits the recursion depth,
and exhausting it with enrollments still unplaced yields the outer `none`.
Used to state that depth `enrollments.length` always suffices. -/
def solveFuel (ext : List Assignment) (cands : Enrollment → List Candidate) :
    Nat → List Enrollment → List Assignment → Option (Option (List Assignment))
  | _, [], placed => some (some placed)
  | 0, _ :: _, _ => none
  | fuel + 1, e :: rest, placed => solveFuelGo ext cands fuel e rest placed (cands e)
termination_by _ es _ => (sizeOf es, 0)

/-- Candidate loop of the depth-bounded search; a fuel exhaustion in a
recursive call aborts the whole search (outer `none`). -/
def solveFuelGo (ext : List Assignment) (cands : Enrollment → List Candidate)
    (fuel : Nat) (e : Enrollment) (rest : List Enrollment)
    (placed : List Assignment) :
    List Candidate → Option (Option (List Assignment))
  | [] => some none
  | c :: cs =>
    if candOk ext e c placed then
      match solveFuel ext cands fuel rest (⟨e, c⟩ :: placed) with
      | none => none
      | some (some sol) => some (some sol)
      | some none => solveFuelGo ext cands fuel e rest placed cs
    else
      solveFuelGo ext cands fuel e rest placed cs
termination_by cs => (sizeOf rest, sizeOf cs + 1)

end

/-- Generation report: counts plus the enrollments that could not be
placed (spec `get_report`). -/
structure GenReport where
  placed : Nat
  unplaced : List Nat
  total : Nat
deriving DecidableEq

/-- Modelled from the spec: `generate_timetable` runs the backtracking
search over the in-scope enrollments and returns success together with the
report; infeasibility is the normal `false` outcome with every enrollment
reported unplaced, not an exception (the function is total). -/
def generate_timetable (ext : List Assignment)
    (cands : Enrollment → List Candidate) (enrollments : List Enrollment) :
    Bool × GenReport :=
  match solve ext cands enrollments [] with
  | some _ => (true, ⟨enrollments.length, [], enrollments.length⟩)
  | none => (false, ⟨0, enrollments.map (·.id), enrollments.length⟩)

/-! Helper lemmas shared by the claim theorems. -/

theorem deactivate_all_draft (db : List Timetable) :
    ∀ t ∈ deactivate_all_published db, t.is_draft = true := by
  intro t ht
  simp only [deactivate_all_published, List.mem_map] at ht
  obtain ⟨u, -, rfl⟩ := ht
  by_cases hu : u.is_draft = false <;> simp [hu]

theorem service_on_all_draft_prev_zero (db : List Timetable) (v : String)
    (h : ∀ t ∈ db, t.is_draft = true) :
    (publish_draft_timetable v db).2.previously_active_count = 0 ∧
    (publish_draft_timetable v db).2.previously_active_versions = [] := by
  constructor <;>
    · simp [publish_draft_timetable]
      intro a ha hdraft
      exact absurd hdraft (by simp [h a ha])

theorem draft_update_eta (t : Timetable) (h : t.is_draft = true) :
    { t with is_draft := true } = t := by
  cases t
  simp_all

theorem published_update_eta (t : Timetable) (h : t.is_draft = false) :
    { t with is_draft := false } = t := by
  cases t
  simp_all

/-- The state produced by `publish_draft_view` on any version token:
every row keeps its placement and version, and its draft flag becomes
`False` exactly when its version is the requested one. -/
theorem publish_pipeline_state (db : List Timetable) (v : String) :
    (publish_draft_view (some v) db).1 =
      db.map fun t =>
        if t.draft_version = v then { t with is_draft := false }
        else { t with is_draft := true } := by
  have hview : (publish_draft_view (some v) db).1 =
      (publish_draft_timetable v (deactivate_all_published db)).1 := by
    simp only [publish_draft_view]
    split
    · rfl
    · split <;> rfl
  rw [hview]
  simp only [publish_draft_timetable, deactivate_all_published, List.map_map]
  apply List.map_congr_left
  intro t _
  simp only [Function.comp]
  by_cases hd : t.is_draft = false
  · by_cases hv : t.draft_version = v <;> simp [hd, hv]
  · have hd2 : t.is_draft = true := by simpa using hd
    by_cases hv : t.draft_version = v <;> simp [hd2, hv, draft_update_eta t hd2]

theorem dedup_all_eq (v : String) :
    ∀ l : List String, (∀ x ∈ l, x = v) → l.dedup = if l.isEmpty then [] else [v] := by
  intro l
  induction l with
  | nil => intro _; simp
  | cons x xs ih =>
    intro h
    have hx : x = v := h x (by simp)
    subst hx
    match xs, ih with
    | [], _ => simp
    | y :: ys, ih =>
      have hy : y = x := by
        have := h y (by simp)
        have hxv := h x (by simp)
        simp [this, hxv]
      have hmem : x ∈ y :: ys := by simp [hy]
      rw [List.dedup_cons_of_mem hmem]
      have := ih (fun z hz => h z (by simp [hz]))
      simpa using this

/-! C5: the publish_draft endpoint's unconditional deactivation step. -/

/-- C5: before delegating to the lifecycle manager, `publish_draft` flips
every published entry — of any version and any term — back to draft, so
the subsequent service publish computes its previously-active information
on a state with no published entry at all: `previously_active_count` is 0,
`previously_active_versions` is empty, and the endpoint response never
carries a previously-active field. -/
theorem publish_draft_preflip_clears_all_published (db : List Timetable) (v : String) :
    (∀ t ∈ deactivate_all_published db, t.is_draft = true) ∧
    (publish_draft_timetable v (deactivate_all_published db)).2.previously_active_count = 0 ∧
    (publish_draft_timetable v (deactivate_all_published db)).2.previously_active_versions = [] ∧
    (publish_draft_view (some v) db).2.previously_active_count = none := by
  have hall := deactivate_all_draft db
  have hsvc := service_on_all_draft_prev_zero (deactivate_all_published db) v hall
  refine ⟨hall, hsvc.1, hsvc.2, ?_⟩
  simp only [publish_draft_view]
  split
  · rfl
  · split
    · simp_all
    · rfl

/-- C5 witness: concrete two-version database. -/
theorem publish_draft_preflip_clears_all_published_witness :
    ((∀ t ∈ deactivate_all_published
        [⟨1, ⟨1, none, none, 1, none⟩, "monday", 540, 600, 1, false, "A"⟩,
         ⟨2, ⟨2, none, none, 1, none⟩, "tuesday", 540, 600, 2, true, "B"⟩],
        t.is_draft = true) ∧
      (publish_draft_timetable "B" (deactivate_all_published
        [⟨1, ⟨1, none, none, 1, none⟩, "monday", 540, 600, 1, false, "A"⟩,
         ⟨2, ⟨2, none, none, 1, none⟩, "tuesday", 540, 600, 2, true, "B"⟩])).2.previously_active_count = 0 ∧
      (publish_draft_timetable "B" (deactivate_all_published
        [⟨1, ⟨1, none, none, 1, none⟩, "monday", 540, 600, 1, false, "A"⟩,
         ⟨2, ⟨2, none, none, 1, none⟩, "tuesday", 540, 600, 2, true, "B"⟩])).2.previously_active_versions = [] ∧
      (publish_draft_view (some "B")
        [⟨1, ⟨1, none, none, 1, none⟩, "monday", 540, 600, 1, false, "A"⟩,
         ⟨2, ⟨2, none, none, 1, none⟩, "tuesday", 540, 600, 2, true, "B"⟩]).2.previously_active_count = none) :=
  publish_draft_preflip_clears_all_published
    [⟨1, ⟨1, none, none, 1, none⟩, "monday", 540, 600, 1, false, "A"⟩,
     ⟨2, ⟨2, none, none, 1, none⟩, "tuesday", 540, 600, 2, true, "B"⟩] "B"

/-! C6: revert_to_draft. -/

/-- C6: `revert_to_draft` with a version token flips exactly the published
entries of that version back to draft: afterwards no entry of the version
is published, entries of other versions and entries already in draft state
survive unchanged, nothing is deleted, the reported `updated_count` is the
number of rows flipped, and when the version has no published entries the
result is the 404 "no entries found" response with a zero count (a total
function — no exception path). -/
theorem revert_to_draft_flips_exactly_published_of_version
    (db : List Timetable) (v : String) :
    (∀ t ∈ (revert_to_draft db (some v)).1, t.draft_version = v → t.is_draft = true) ∧
    (∀ t ∈ db, t.draft_version ≠ v ∨ t.is_draft = true →
      t ∈ (revert_to_draft db (some v)).1) ∧
    (∀ t ∈ db, t.draft_version = v → t.is_draft = false →
      { t with is_draft := true } ∈ (revert_to_draft db (some v)).1) ∧
    (revert_to_draft db (some v)).1.length = db.length ∧
    (revert_to_draft db (some v)).2.updated_count =
      (db.filter fun t => decide (t.draft_version = v) && decide (t.is_draft = false)).length ∧
    ((db.filter fun t => decide (t.draft_version = v) && decide (t.is_draft = false)) = [] →
      (revert_to_draft db (some v)).2 = ⟨404, 0⟩) := by
  have hstate : (revert_to_draft db (some v)).1 =
      db.map fun t =>
        if t.draft_version = v ∧ t.is_draft = false then
          { t with is_draft := true }
        else t := by
    simp only [revert_to_draft]
    split <;> rfl
  refine ⟨?_, ?_, ?_, ?_, ?_, ?_⟩
  · intro t ht
    rw [hstate] at ht
    simp only [List.mem_map] at ht
    obtain ⟨u, -, rfl⟩ := ht
    split
    · intro _
      simp
    · rename_i hcond
      intro hv
      by_cases hd : u.is_draft = true
      · exact hd
      · exact absurd ⟨hv, by simpa using hd⟩ hcond
  · intro t ht hcond
    rw [hstate]
    have : (if t.draft_version = v ∧ t.is_draft = false then
        ({ t with is_draft := true } : Timetable) else t) = t := by
      split
      · rename_i hc
        rcases hcond with h1 | h1
        · exact absurd hc.1 h1
        · rw [hc.2] at h1; cases h1
      · rfl
    rw [← this]
    exact List.mem_map_of_mem _ ht
  · intro t ht h1 h2
    rw [hstate]
    have : ({ t with is_draft := true } : Timetable) =
        (if t.draft_version = v ∧ t.is_draft = false then
          ({ t with is_draft := true } : Timetable) else t) := by
      rw [if_pos ⟨h1, h2⟩]
    rw [this]
    exact List.mem_map_of_mem _ ht
  · rw [hstate, List.length_map]
  · simp only [revert_to_draft]
    split
    · rename_i hzero
      exact hzero.symm
    · rfl
  · intro hnil
    simp only [revert_to_draft, hnil]
    simp

/-- C6 witness: a database with one published entry of version "A", one
draft entry of "A" and one published entry of "B"; reverting "A" flips
only the published "A" row and reports a count of 1. -/
theorem revert_to_draft_flips_exactly_published_of_version_witness :
    (∀ t ∈ (revert_to_draft
        [⟨1, ⟨1, none, none, 1, none⟩, "monday", 540, 600, 1, false, "A"⟩,
         ⟨2, ⟨2, none, none, 1, none⟩, "tuesday", 540, 600, 1, true, "A"⟩,
         ⟨3, ⟨3, none, none, 1, none⟩, "friday", 540, 600, 2, false, "B"⟩] (some "A")).1,
      t.draft_version = "A" → t.is_draft = true) ∧
    (revert_to_draft
        [⟨1, ⟨1, none, none, 1, none⟩, "monday", 540, 600, 1, false, "A"⟩,
         ⟨2, ⟨2, none, none, 1, none⟩, "tuesday", 540, 600, 1, true, "A"⟩,
         ⟨3, ⟨3, none, none, 1, none⟩, "friday", 540, 600, 2, false, "B"⟩] (some "A")).2.updated_count = 1 :=
  ⟨(revert_to_draft_flips_exactly_published_of_version
      [⟨1, ⟨1, none, none, 1, none⟩, "monday", 540, 600, 1, false, "A"⟩,
       ⟨2, ⟨2, none, none, 1, none⟩, "tuesday", 540, 600, 1, true, "A"⟩,
       ⟨3, ⟨3, none, none, 1, none⟩, "friday", 540, 600, 2, false, "B"⟩] "A").1,
   by
    rw [(revert_to_draft_flips_exactly_published_of_version
      [⟨1, ⟨1, none, none, 1, none⟩, "monday", 540, 600, 1, false, "A"⟩,
       ⟨2, ⟨2, none, none, 1, none⟩, "tuesday", 540, 600, 1, true, "A"⟩,
       ⟨3, ⟨3, none, none, 1, none⟩, "friday", 540, 600, 2, false, "B"⟩] "A").2.2.2.2.1]
    decide⟩

/-! C9: role-based filtering of the timetable list queryset. -/

/-- C9: for a trainee or trainer, every entry in the list queryset is
published (`is_draft=False`) and belongs to the requesting user — a
trainee only sees entries of class groups containing them, a trainer only
entries of enrollments assigned to them; no draft entry is ever returned
to these roles. -/
theorem get_queryset_trainee_trainer_only_published_own
    (user : User) (term : Option Nat) (db : List Timetable) (t : Timetable)
    (hrole : user.role = Role.trainee ∨ user.role = Role.trainer)
    (ht : t ∈ get_queryset user term db) :
    t.is_draft = false ∧
    (user.role = Role.trainee →
      ∃ cg, t.course_enrollment.class_group = some cg ∧ user.id ∈ cg.trainees) ∧
    (user.role = Role.trainer → t.course_enrollment.trainer = some user.id) := by
  rcases hrole with hr | hr <;>
    simp only [get_queryset, hr] at ht <;>
    rw [List.mem_filter] at ht <;>
    rcases ht with ⟨ht, hdraft⟩ <;>
    rw [List.mem_filter] at ht <;>
    rcases ht with ⟨-, hbelong⟩
  · refine ⟨by simpa using hdraft, fun _ => ?_,
      fun hco => Role.noConfusion (hr.symm.trans hco)⟩
    rcases hcg : t.course_enrollment.class_group with _ | cg
    · rw [hcg] at hbelong
      simp at hbelong
    · rw [hcg] at hbelong
      exact ⟨cg, rfl, by simpa using hbelong⟩
  · exact ⟨by simpa using hdraft, fun hco => Role.noConfusion (hr.symm.trans hco),
      fun _ => by simpa using hbelong⟩

/-- C9 witness: a trainee sees the published entry of their class group
and the characterization applies to it. -/
theorem get_queryset_trainee_trainer_only_published_own_witness :
    (⟨1, ⟨1, none, some ⟨5, [9], none⟩, 1, none⟩, "monday", 540, 600, 1, false, "A"⟩ : Timetable).is_draft = false ∧
    ((⟨9, Role.trainee⟩ : User).role = Role.trainee →
      ∃ cg, (⟨1, ⟨1, none, some ⟨5, [9], none⟩, 1, none⟩, "monday", 540, 600, 1, false, "A"⟩ : Timetable).course_enrollment.class_group = some cg ∧
        (⟨9, Role.trainee⟩ : User).id ∈ cg.trainees) ∧
    ((⟨9, Role.trainee⟩ : User).role = Role.trainer →
      (⟨1, ⟨1, none, some ⟨5, [9], none⟩, 1, none⟩, "monday", 540, 600, 1, false, "A"⟩ : Timetable).course_enrollment.trainer = some (⟨9, Role.trainee⟩ : User).id) :=
  get_queryset_trainee_trainer_only_published_own ⟨9, Role.trainee⟩ none
    [⟨1, ⟨1, none, some ⟨5, [9], none⟩, 1, none⟩, "monday", 540, 600, 1, false, "A"⟩,
     ⟨2, ⟨2, none, some ⟨5, [9], none⟩, 1, none⟩, "tuesday", 540, 600, 1, true, "A"⟩]
    ⟨1, ⟨1, none, some ⟨5, [9], none⟩, 1, none⟩, "monday", 540, 600, 1, false, "A"⟩
    (Or.inl rfl) (by decide)

/-! C10: bulk_create. -/

theorem bulk_create_go_eq {α ε : Type} (validate : α → Except ε Timetable) :
    ∀ (items : List α) (db created_acc : List Timetable)
      (errors_acc : List (α × ε)),
      bulk_create_go validate items db created_acc errors_acc =
        (db ++ items.filterMap (fun i => (validate i).toOption),
         created_acc.reverse ++ items.filterMap (fun i => (validate i).toOption),
         errors_acc.reverse ++ items.filterMap (fun i =>
           match validate i with
           | Except.error e => some (i, e)
           | Except.ok _ => none)) := by
  intro items
  induction items with
  | nil => intro db c e; simp [bulk_create_go]
  | cons item rest ih =>
    intro db c e
    rcases hv : validate item with err | row <;>
      simp [bulk_create_go, hv, ih, Except.toOption]

/-- C10: for every submitted list, each item accepted by the serializer is
saved and listed (in order) in the response's `created`, each rejected
item is recorded in `errors` with its input data and error details, the
status is 201 exactly when `errors` is empty and 400 otherwise, and the
saved rows stay persisted also on the 400 path (the batch is not rolled
back). -/
theorem bulk_create_partial_persist {α ε : Type}
    (validate : α → Except ε Timetable) (items : List α) (db : List Timetable) :
    (bulk_create validate items db).2.created =
      items.filterMap (fun i => (validate i).toOption) ∧
    (bulk_create validate items db).2.errors =
      items.filterMap (fun i =>
        match validate i with
        | Except.error e => some (i, e)
        | Except.ok _ => none) ∧
    (bulk_create validate items db).1 = db ++ (bulk_create validate items db).2.created ∧
    ((bulk_create validate items db).2.status = 201 ↔
      (bulk_create validate items db).2.errors = []) ∧
    ((bulk_create validate items db).2.status = 201 ∨
      (bulk_create validate items db).2.status = 400) := by
  simp only [bulk_create, bulk_create_go_eq]
  refine ⟨by simp, by simp, by simp, ?_, ?_⟩
  · by_cases he : (items.filterMap (fun i =>
        match validate i with
        | Except.error e => some (i, e)
        | Except.ok _ => none)) = [] <;> simp [he]
  · by_cases he : (items.filterMap (fun i =>
        match validate i with
        | Except.error e => some (i, e)
        | Except.ok _ => none)) = [] <;> simp [he]

/-! C1: the single-active-version invariant. -/

/-- A version-A draft entry used by the concrete publish scenarios. -/
def entryA : Timetable := ⟨1, ⟨1, none, none, 1, none⟩, "monday", 540, 600, 1, true, "A"⟩

/-- A version-B draft entry used by the concrete publish scenarios. -/
def entryB : Timetable := ⟨2, ⟨2, none, none, 1, none⟩, "monday", 600, 660, 2, true, "B"⟩

/-- C1 counterexample: starting from two draft versions, publishing
version "A" through `publish_draft` and then publishing the version-"B"
entry through the per-entry `publish` action leaves two distinct versions
with published entries — the claim that any sequence of the two publish
operations preserves "at most one active version" is false. -/
theorem publish_entry_breaks_single_active_version :
    activeVersions (publish_entry (publish_draft_view (some "A") [entryA, entryB]).1 2).1 =
      ["A", "B"] := by decide

/-- The per-row effect of the `publish_draft` pipeline on any version
token, read off from `publish_pipeline_state`. -/
def publishMap (v : String) : Timetable → Timetable := fun t =>
  if t.draft_version = v then { t with is_draft := false }
  else { t with is_draft := true }

theorem publish_pipeline_state_pm (db : List Timetable) (v : String) :
    (publish_draft_view (some v) db).1 = db.map (publishMap v) := by
  rw [publish_pipeline_state]
  rfl

theorem publishMap_draft_version (v : String) (t : Timetable) :
    (publishMap v t).draft_version = t.draft_version := by
  simp only [publishMap]
  split <;> rfl

theorem publishMap_is_draft (v : String) (t : Timetable) :
    (publishMap v t).is_draft = !decide (t.draft_version = v) := by
  simp only [publishMap]
  split <;> simp_all

theorem activeVersions_publishMap_sub (db : List Timetable) (v : String) :
    ∀ w ∈ activeVersions (db.map (publishMap v)), w = v := by
  intro w hw
  rw [activeVersions, List.mem_dedup, List.mem_map] at hw
  obtain ⟨t, htf, rfl⟩ := hw
  rw [List.mem_filter] at htf
  obtain ⟨htm, hpub⟩ := htf
  rw [List.mem_map] at htm
  obtain ⟨u, -, rfl⟩ := htm
  rw [publishMap_draft_version]
  rw [publishMap_is_draft] at hpub
  simpa using hpub

theorem activeVersions_publishMap_mem (db : List Timetable) (v : String)
    (t₀ : Timetable) (ht₀ : t₀ ∈ db) (hv₀ : t₀.draft_version = v) :
    v ∈ activeVersions (db.map (publishMap v)) := by
  rw [activeVersions, List.mem_dedup, List.mem_map]
  refine ⟨publishMap v t₀, ?_, by rw [publishMap_draft_version, hv₀]⟩
  rw [List.mem_filter]
  refine ⟨List.mem_map_of_mem _ ht₀, ?_⟩
  rw [publishMap_is_draft]
  simp [hv₀]

theorem nodup_all_eq_singleton {α : Type} :
    ∀ (l : List α) (v : α), l.Nodup → v ∈ l → (∀ w ∈ l, w = v) → l = [v]
  | [], _, _, hmem, _ => absurd hmem (by simp)
  | w :: ws, v, hnodup, _, hall => by
    have hw : w = v := hall w (by simp)
    have hws : ws = [] := by
      cases hx : ws with
      | nil => rfl
      | cons x xs =>
        have hxv : x = v := hall x (by simp [hx])
        have hnotmem := (List.nodup_cons.mp hnodup).1
        rw [hx] at hnotmem
        exact absurd (by simp [hw, hxv] : w ∈ x :: xs) hnotmem
    rw [hw, hws]

/-- C1 amended: the invariant is enforced by the `publish_draft` endpoint
alone — after any `publish_draft` call every published entry belongs to
the requested version (so at most one version is active, and exactly the
requested one when it has entries); the per-entry `publish` action gives
no such guarantee. -/
theorem publish_draft_single_active_version (db : List Timetable) (v : String) :
    (∀ w ∈ activeVersions (publish_draft_view (some v) db).1, w = v) ∧
    ((db.filter fun t => decide (t.draft_version = v)) ≠ [] →
      activeVersions (publish_draft_view (some v) db).1 = [v]) := by
  rw [publish_pipeline_state_pm]
  refine ⟨activeVersions_publishMap_sub db v, fun hne => ?_⟩
  obtain ⟨t₀, ht₀f⟩ := List.exists_mem_of_ne_nil _ hne
  have ht₀ : t₀ ∈ db := List.mem_of_mem_filter ht₀f
  have hv₀ : t₀.draft_version = v := by simpa using List.of_mem_filter ht₀f
  have hnodup : (activeVersions (db.map (publishMap v))).Nodup := by
    rw [activeVersions]
    exact List.nodup_dedup _
  exact nodup_all_eq_singleton _ v hnodup
    (activeVersions_publishMap_mem db v t₀ ht₀ hv₀)
    (activeVersions_publishMap_sub db v)

/-- C1 witness: publishing version "A" over a database holding a published
"B" entry and a draft "A" entry leaves "A" as the only active version. -/
theorem publish_draft_single_active_version_witness :
    (∀ w ∈ activeVersions (publish_draft_view (some "A")
        [entryA, { entryB with is_draft := false }]).1, w = "A") ∧
    activeVersions (publish_draft_view (some "A")
        [entryA, { entryB with is_draft := false }]).1 = ["A"] :=
  ⟨(publish_draft_single_active_version [entryA, { entryB with is_draft := false }] "A").1,
   (publish_draft_single_active_version [entryA, { entryB with is_draft := false }] "A").2
     (by decide)⟩

/-! C4: idempotence in effect of publish_draft. -/

theorem isActive_publishMap (db : List Timetable) (v : String) :
    isActive v (db.map (publishMap v)) =
      !(db.filter fun t => decide (t.draft_version = v)).isEmpty := by
  rw [isActive, List.filter_map]
  have hpred : ((fun t : Timetable =>
      decide (t.draft_version = v) && decide (t.is_draft = false)) ∘ publishMap v) =
      fun t : Timetable => decide (t.draft_version = v) := by
    funext t
    simp only [Function.comp, publishMap_draft_version, publishMap_is_draft]
    by_cases h : t.draft_version = v <;> simp [h]
  rw [hpred]
  cases hfe : db.filter fun t : Timetable => decide (t.draft_version = v) <;>
    simp [hfe]

theorem publishMap_filter_version (db : List Timetable) (v : String) :
    ((db.map (publishMap v)).filter fun t => decide (t.draft_version = v)).length =
      (db.filter fun t => decide (t.draft_version = v)).length := by
  rw [List.filter_map]
  have hpred : ((fun t : Timetable => decide (t.draft_version = v)) ∘ publishMap v) =
      fun t : Timetable => decide (t.draft_version = v) := by
    funext t
    simp [Function.comp, publishMap_draft_version]
  rw [hpred, List.length_map]

theorem deactivate_filter_version (db : List Timetable) (v : String) :
    ((deactivate_all_published db).filter fun t => decide (t.draft_version = v)).length =
      (db.filter fun t => decide (t.draft_version = v)).length := by
  rw [deactivate_all_published, List.filter_map]
  have hpred : ((fun t : Timetable => decide (t.draft_version = v)) ∘ fun t =>
      if t.is_draft = false then { t with is_draft := true } else t) =
      fun t : Timetable => decide (t.draft_version = v) := by
    funext t
    by_cases h : t.is_draft = false <;> simp [Function.comp, h]
  rw [hpred, List.length_map]

theorem publish_draft_view_response (db : List Timetable) (v : String)
    (h : (db.filter fun t => decide (t.draft_version = v)) ≠ []) :
    (publish_draft_view (some v) db).2 =
      ⟨200, (db.filter fun t => decide (t.draft_version = v)).length, none, none⟩ := by
  have hprev := service_on_all_draft_prev_zero (deactivate_all_published db) v
    (deactivate_all_draft db)
  have hcount : (publish_draft_timetable v (deactivate_all_published db)).2.published_count =
      (db.filter fun t => decide (t.draft_version = v)).length := by
    simp only [publish_draft_timetable]
    exact deactivate_filter_version db v
  simp only [publish_draft_view]
  split
  · rename_i hzero
    rw [hcount] at hzero
    exact absurd (List.length_eq_zero.mp hzero) h
  · split
    · rename_i hpos
      rw [hprev.1] at hpos
      exact absurd hpos (lt_irrefl 0)
    · rw [hcount]

/-- C4: for a version V that has entries, publishing V twice through
`publish_draft` leaves V active after each call, and the second call's
previously-active information is zero — no entries of other versions are
reverted (the service observes zero previously-active entries and the
response carries no previously-active field). -/
theorem publish_draft_idempotent (db : List Timetable) (v : String)
    (h : (db.filter fun t => decide (t.draft_version = v)) ≠ []) :
    isActive v (publish_draft_view (some v) db).1 = true ∧
    isActive v (publish_draft_view (some v) (publish_draft_view (some v) db).1).1 = true ∧
    (publish_draft_view (some v) (publish_draft_view (some v) db).1).2.previously_active_count
      = none ∧
    (publish_draft_timetable v
      (deactivate_all_published (publish_draft_view (some v) db).1)).2.previously_active_count
      = 0 := by
  have h1 : (((publish_draft_view (some v) db).1).filter fun t =>
      decide (t.draft_version = v)) ≠ [] := by
    rw [publish_pipeline_state_pm]
    intro hnil
    have hlen := publishMap_filter_version db v
    rw [hnil] at hlen
    exact h (List.length_eq_zero.mp hlen.symm)
  refine ⟨?_, ?_, ?_, ?_⟩
  · rw [publish_pipeline_state_pm, isActive_publishMap]
    cases hfe : db.filter fun t : Timetable => decide (t.draft_version = v) with
    | nil => exact absurd hfe h
    | cons a as => rfl
  · rw [publish_pipeline_state_pm ((publish_draft_view (some v) db).1) v,
      isActive_publishMap]
    cases hfe : ((publish_draft_view (some v) db).1).filter
        fun t : Timetable => decide (t.draft_version = v) with
    | nil => exact absurd hfe h1
    | cons a as => rfl
  · rw [publish_draft_view_response _ v h1]
  · exact (service_on_all_draft_prev_zero _ v (deactivate_all_draft _)).1

/-- C4 witness: publishing version "A" twice over a single-entry database. -/
theorem publish_draft_idempotent_witness :
    isActive "A" (publish_draft_view (some "A") [entryA]).1 = true ∧
    isActive "A" (publish_draft_view (some "A")
      (publish_draft_view (some "A") [entryA]).1).1 = true ∧
    (publish_draft_view (some "A")
      (publish_draft_view (some "A") [entryA]).1).2.previously_active_count = none ∧
    (publish_draft_timetable "A"
      (deactivate_all_published
        (publish_draft_view (some "A") [entryA]).1)).2.previously_active_count = 0 :=
  publish_draft_idempotent [entryA] "A" (by decide)

/-! C2 and C7: the conflicts endpoint. -/

theorem solveFuel_adequate (ext : List Assignment)
    (cands : Enrollment → List Candidate) :
    ∀ (es : List Enrollment) (fuel : Nat) (placed : List Assignment),
      es.length ≤ fuel →
      solveFuel ext cands fuel es placed = some (solve ext cands es placed) := by
  intro es
  induction es with
  | nil =>
    intro fuel placed _
    cases fuel <;> simp [solveFuel, solve]
  | cons e rest ih =>
    intro fuel placed h
    match fuel with
    | 0 => exact absurd h (by simp)
    | f + 1 =>
      have hf : rest.length ≤ f := by
        simpa using Nat.le_of_succ_le_succ h
      rw [solveFuel, solve]
      have inner : ∀ (cs : List Candidate) (placed : List Assignment),
          solveFuelGo ext cands f e rest placed cs =
            some (solveGo ext cands e rest placed cs) := by
        intro cs
        induction cs with
        | nil =>
          intro placed
          rw [solveFuelGo, solveGo]
        | cons c cs ihc =>
          intro placed
          rw [solveFuelGo, solveGo]
          by_cases hok : candOk ext e c placed
          · rw [if_pos hok, if_pos hok, ih f (⟨e, c⟩ :: placed) hf]
            cases solve ext cands rest (⟨e, c⟩ :: placed) <;> simp [ihc]
          · rw [if_neg hok, if_neg hok, ihc]
      exact inner (cands e) placed

/-- C3: the backtracking search needs recursion depth no greater than the
number of in-scope enrollments (the depth-bounded search with exactly that
much fuel computes the same result as the unbounded one, for every scope),
and when the search exhausts every candidate `generate_timetable` returns
`false` — a normal value, not an exception — with every in-scope
enrollment listed in the report's unplaced list. -/
theorem generate_timetable_terminates_and_reports_unplaced
    (ext : List Assignment) (cands : Enrollment → List Candidate)
    (enrollments : List Enrollment) :
    solveFuel ext cands enrollments.length enrollments [] =
      some (solve ext cands enrollments []) ∧
    (solve ext cands enrollments [] = none →
      generate_timetable ext cands enrollments =
        (false, ⟨0, enrollments.map (·.id), enrollments.length⟩)) := by
  refine ⟨solveFuel_adequate ext cands enrollments enrollments.length [] le_rfl, ?_⟩
  intro h
  simp [generate_timetable, h]

/-- An enrollment used by the concrete generation scenario. -/
def enrollNoSlot : Enrollment := ⟨5, some 10, some ⟨20, [], none⟩, 1, none⟩

/-- C3 witness: a scope with one enrollment and an empty candidate list —
the search exhausts immediately, the fuel bound holds, and the report
lists the enrollment as unplaced. -/
theorem generate_timetable_terminates_and_reports_unplaced_witness :
    solveFuel [] (fun _ => []) [enrollNoSlot].length [enrollNoSlot] [] =
      some (solve [] (fun _ => []) [enrollNoSlot] []) ∧
    generate_timetable [] (fun _ => []) [enrollNoSlot] =
      (false, ⟨0, [enrollNoSlot].map (·.id), [enrollNoSlot].length⟩) :=
  ⟨(generate_timetable_terminates_and_reports_unplaced [] (fun _ => []) [enrollNoSlot]).1,
   (generate_timetable_terminates_and_reports_unplaced [] (fun _ => []) [enrollNoSlot]).2
     (by rw [solve, solveGo])⟩

end HMS
